import Mathlib

/-!
Verification of the demographics/map script src/Ex4/ex4_play.py.

Shallow embedding notes:
* Tables are lists of records; pandas inner merges become list joins that keep the
  left table's row order.
* Float values are modelled as rationals; a NaN / missing cell is an Option that
  is none.  The to_json serialization turns NaN into null, so none faithfully
  stands for the "no data" cell both in the frame and in the published document.
* Dates are modelled as integers (day numbers).  The script only ever builds
  column keys via strftime of midnight datetimes, which is a bijection between
  days and the key strings, so the string detour is elided.
* The bokeh document state (merged table, slider, mappers, play flag, published
  GeoJSON) is an explicit AppState record; every UI handler is a function on it.
  A python exception inside a handler is an Except.error: the bokeh server drops
  the exception, so the surrounding step leaves the document unchanged.
-/

namespace Ex4

/-- One row of the canton polygon table canton_poly: geometry (abstracted to a tag)
plus the canton code sliced from HASC_1, lines 81-82 of ex4_play.py. -/
structure PolyRow where
  geometry : Nat
  Canton : String
deriving DecidableEq, Inhabited

/-- One row of the demographics table demo_raw (line 59) with the two metric
columns the script uses. -/
structure DemoRow where
  Canton : String
  Density : ℚ
  BedsPerCapita : ℚ
deriving DecidableEq, Inhabited

/-- One row of canton_point (line 66): a unique abbreviation_canton/lat/long
combination extracted from the location table. -/
structure PointRow where
  abbreviation_canton : String
  lat : ℚ
  long : ℚ
deriving DecidableEq, Inhabited

/-- The case time series case_raw (line 70) after selecting the diff_pc columns and
dropping CH_diff_pc (lines 96-97): dates holds case_raw.Date row by row (line 73),
cantonCols the canton code of each retained per-capita column in column order, and
rows one value list per date, one entry per retained column; a NaN cell is none. -/
structure CaseTable where
  dates : List ℤ
  cantonCols : List String
  rows : List (List (Option ℚ))
deriving DecidableEq, Inhabited

/-- One row of the merged static table after the two joins of lines 91-92. -/
structure StaticRow where
  poly : PolyRow
  demo : DemoRow
  point : PointRow
deriving DecidableEq, Inhabited

/-- Lines 91-92: merged = canton_poly.merge(demo_raw, on='Canton'), then
merged.merge(canton_point, left_on='Canton', right_on='abbreviation_canton').
Both are pandas inner merges: a row appears for every key match, in left-table
row order with right-table matches in their own order. -/
def mergeStatic (polys : List PolyRow) (demos : List DemoRow) (points : List PointRow) :
    List StaticRow :=
  (polys.flatMap fun p => (demos.filter fun q => q.Canton == p.Canton).map fun q => (p, q)).flatMap
    fun pq => (points.filter fun t => t.abbreviation_canton == pq.1.Canton).map
      fun t => ⟨pq.1, pq.2, t⟩

/-- Lines 99-101: for row i of the case table the loop does
merged[d] = list(list_diff_pc.iloc[i]).  Assigning a plain python list to a
dataframe column copies it positionally, so merged row k receives entry k of
every date row.  cellsOfRow collects the per-date cells received by merged
row k, in case-table row (= date) order. -/
def cellsOfRow (ct : CaseTable) (k : ℕ) : List (Option ℚ) :=
  ct.rows.map fun row => (row[k]?).join

/-- The case-table cell at date-row i and column position k (none when either
index is out of range or the stored value is NaN). -/
def cellAt (ct : CaseTable) (i k : ℕ) : Option ℚ :=
  ((ct.rows[i]?).bind fun row => row[k]?).join

/-- The constant 1e5 / 5 = 20000 of lines 105 and 186 (written as the literal
so that the kernel can evaluate sizes; C2 proves SCALE = 100000 / 5). -/
def SCALE : ℚ := 20000

/-- The additive constant 10 of lines 105 and 186. -/
def OFFSET : ℚ := 10

/-- The marker-size law of lines 105 and 186: size = value * 1e5 / 5 + 10. -/
def scaleSize (v : ℚ) : ℚ := v * SCALE + OFFSET

/-- One merged record: the static join result, the per-date cells, and the two
volatile columns size and dnc. -/
structure MergedRow where
  static : StaticRow
  cells : List (Option ℚ)
  size : Option ℚ
  dnc : Option ℚ
deriving DecidableEq, Inhabited

/-- The merged row built at position k: its positional cells plus the initial
size and dnc of lines 105-106.  Line 105 reads iloc[:, -1], the last column,
which is the last date column because the date columns were appended last; line
106 reads iloc[:, -2], which after appending 'size' is again the last date
column.  (If the case table had no dates at all, iloc would hit a static column
instead; theorems about the initial size/dnc therefore assume at least one
date.)  A NaN in the last date column propagates: NaN * 1e5/5 + 10 is NaN. -/
def mkRow (ct : CaseTable) (k : ℕ) (st : StaticRow) : MergedRow :=
  { static := st
    cells := cellsOfRow ct k
    size := ((cellsOfRow ct k).getLast?.join).map scaleSize
    dnc := (cellsOfRow ct k).getLast?.join }

/-- Builds the merged rows from position k onward (the pandas frame is
positionally indexed after the merges reset the index). -/
def buildRows (ct : CaseTable) : ℕ → List StaticRow → List MergedRow
  | _, [] => []
  | k, st :: rest => mkRow ct k st :: buildRows ct (k + 1) rest

/-- Lines 91-106: the full merged table as it stands when the GeoJSONDataSource
is first built at line 109. -/
def initMerged (polys : List PolyRow) (demos : List DemoRow) (points : List PointRow)
    (ct : CaseTable) : List MergedRow :=
  buildRows ct 0 (mergeStatic polys demos points)

/-- python min over a nonempty sequence (line 120); none on the empty one,
where python would raise. -/
def foldMin {α : Type} [LinearOrder α] : List α → Option α
  | [] => none
  | a :: as => some (as.foldl min a)

/-- python max / pandas .max over a nonempty sequence (lines 120-123, 172);
none on the empty one. -/
def foldMax {α : Type} [LinearOrder α] : List α → Option α
  | [] => none
  | a :: as => some (as.foldl max a)

/-- The low/high bounds of one linear_cmap color mapper (lines 119-123). -/
structure Mapper where
  low : ℚ
  high : ℚ
deriving DecidableEq, Inhabited

/-- Lines 120-123: a mapper whose low is the minimum and whose high is the
maximum of the given static demographics column.  The getD 0 default is never
reached under the nonempty-table hypothesis carried by the theorems (python
min/max of an empty column would raise at startup). -/
def mkMapper (l : List ℚ) : Mapper :=
  { low := (foldMin l).getD 0, high := (foldMax l).getD 0 }

/-- The mutable bokeh document state: the merged table, the known dates, the
slider value, the two color mappers, the active metric (RadioButtonGroup, line
155), the play flag (button label, lines 215-226), and the currently published
GeoJSON document (geosource, lines 109 and 188), modelled as the snapshot of
merged it serializes. -/
structure AppState where
  merged : List MergedRow
  dates : List ℤ
  sliderValue : ℤ
  densityMapper : Mapper
  bedsMapper : Mapper
  metric : ℕ
  playing : Bool
  published : List MergedRow
deriving DecidableEq, Inhabited

/-- The document state right after startup: merged built by lines 91-106,
geosource serialized from it (line 109), mappers from the static demographics
columns (lines 119-123), slider at dates.max() (line 172), Density active,
not playing. -/
def initState (polys : List PolyRow) (demos : List DemoRow) (points : List PointRow)
    (ct : CaseTable) : AppState :=
  let m := initMerged polys demos points ct
  { merged := m
    dates := ct.dates
    sliderValue := (foldMax ct.dates).getD 0
    densityMapper := mkMapper (demos.map fun q => q.Density)
    bedsMapper := mkMapper (demos.map fun q => q.BedsPerCapita)
    metric := 0
    playing := false
    published := m }

/-- Position of the column named by date d among the per-date columns (pandas
column lookup by name; none when the name is absent, where merged[i] raises
KeyError). -/
def colIndex : List ℤ → ℤ → Option ℕ
  | [], _ => none
  | x :: xs, d => if x = d then some 0 else (colIndex xs d).map (· + 1)

/-- The per-record effect of lines 186-187 for the date column at position j:
both size and dnc are overwritten from that one column; a NaN cell makes both
NaN. -/
def updRow (j : ℕ) (r : MergedRow) : MergedRow :=
  { r with
    size := ((r.cells[j]?).join).map scaleSize
    dnc := (r.cells[j]?).join }

/-- Lines 181-188, the slider callback.  merged[i] with a column name that is
not present raises KeyError before any assignment happens: modelled as
Except.error.  On success both volatile columns are rewritten from the date
column (the attribute assignments merged.size / merged.dnc fall through to the
existing columns) and the document is re-serialized into geosource (line 188). -/
def callback (s : AppState) (d : ℤ) : Except Unit AppState :=
  match colIndex s.dates d with
  | none => Except.error ()
  | some j =>
    let m := s.merged.map (updRow j)
    Except.ok { s with merged := m, published := m }

/-- Setting the slider to d (a user drag, or line 211 during animation) first
moves the widget value, then fires the callback; if the callback raises, the
bokeh server logs and drops the exception, so only the slider value has
changed. -/
def setDateStep (s : AppState) (d : ℤ) : AppState :=
  let s1 := { s with sliderValue := d }
  match callback s1 d with
  | Except.ok s2 => s2
  | Except.error _ => s1

/-- Lines 201-209: the next animation date is the current slider date minus one
day, floored to midnight; if that is not among the known dates, dates[-1] (the
last known date) is used instead.  dates[-1] of an empty index raises: Option. -/
def tickNext (dates : List ℤ) (cur : ℤ) : Option ℤ :=
  let day := cur - 1
  if day ∈ dates then some day else dates.getLast?

/-- One event of the single-threaded bokeh run loop. -/
inductive Event where
  | setDate (d : ℤ)
  | setMetric (m : ℕ)
  | pressPlay
  | tick
deriving DecidableEq

/-- One firing of the periodic callback (registered at line 219 only while
playing): animate_update_slider computes the next date and assigns the slider
(line 211), which triggers the date callback. -/
def tickStep (s : AppState) : AppState :=
  if s.playing then
    match tickNext s.dates s.sliderValue with
    | some d => setDateStep s d
    | none => s
  else s

/-- The run-loop transition.  update_bar (lines 159-164) only selects which
mapper drives the patches and color bar; animate (lines 215-222) toggles the
play flag and the periodic registration. -/
def step (s : AppState) : Event → AppState
  | Event.setDate d => setDateStep s d
  | Event.setMetric m => if m < 2 then { s with metric := m } else s
  | Event.pressPlay => { s with playing := !s.playing }
  | Event.tick => tickStep s

/-- Document states reachable from startup by run-loop events. -/
inductive Reachable (polys : List PolyRow) (demos : List DemoRow) (points : List PointRow)
    (ct : CaseTable) : AppState → Prop
  | init : Reachable polys demos points ct (initState polys demos points ct)
  | next {s : AppState} (e : Event) (h : Reachable polys demos points ct s) :
      Reachable polys demos points ct (step s e)

/-- Spec-side definition for claim C1, following the spec's words: the
per-capita daily-new-case figure recorded for canton c on date d in the case
series, i.e. the cell at the row of d and the per-capita column belonging to c,
or none if the source has none. -/
def specCaseValue (ct : CaseTable) (d : ℤ) (c : String) : Option ℚ :=
  match colIndex ct.dates d, ct.cantonCols.findIdx? (fun x => x == c) with
  | some i, some k => cellAt ct i k
  | _, _ => none

/-- The cell the merged output stores for canton c in the column of the i-th
date (lookup of the row whose canton code is c). -/
def mergedCell (m : List MergedRow) (c : String) (i : ℕ) : Option ℚ :=
  match m.find? (fun r => r.static.poly.Canton == c) with
  | some r => (r.cells[i]?).join
  | none => none

/-- Size/dnc consistency of one merged record: both volatile fields are derived
from one and the same date column and obey the affine size law, and they are
missing together when that column's cell is missing. -/
def rowConsistent (r : MergedRow) : Prop :=
  ∃ j : ℕ, r.size = ((r.cells[j]?).join).map scaleSize ∧ r.dnc = (r.cells[j]?).join

/-! Concrete data used by counterexamples and witnesses.  The w-tables follow
the end-to-end scenario of the spec (cantons AG and ZH, three dates, AG's
middle value missing), with small integer stand-ins for the rational values. -/

def wPolys : List PolyRow := [⟨0, "AG"⟩, ⟨1, "ZH"⟩]

def wDemos : List DemoRow := [⟨"AG", 100, 1⟩, ⟨"ZH", 200, 2⟩]

def wPoints : List PointRow := [⟨"AG", 0, 0⟩, ⟨"ZH", 1, 1⟩]

def wCase : CaseTable :=
  ⟨[0, 1, 2], ["AG", "ZH"], [[some 1, some 2], [none, some 3], [some 5, some 4]]⟩

def wInit : AppState := initState wPolys wDemos wPoints wCase

/-- The first merged row of the w-scenario (canton AG). -/
def wRow0 : MergedRow := mkRow wCase 0 ⟨⟨0, "AG"⟩, ⟨"AG", 100, 1⟩, ⟨"AG", 0, 0⟩⟩

/-- Polygon table for the C1 counterexample: merged row order ZH before AG,
while the case-table columns are in the order AG before ZH. -/
def c1Polys : List PolyRow := [⟨0, "ZH"⟩, ⟨1, "AG"⟩]

def c1Demos : List DemoRow := [⟨"AG", 100, 1⟩, ⟨"ZH", 200, 2⟩]

def c1Points : List PointRow := [⟨"AG", 0, 0⟩, ⟨"ZH", 1, 1⟩]

def c1Case : CaseTable := ⟨[0], ["AG", "ZH"], [[some 1, some 2]]⟩

/-- First merged row of the C1 counterexample scenario (canton ZH). -/
def c1Row0 : MergedRow := mkRow c1Case 0 ⟨⟨0, "ZH"⟩, ⟨"ZH", 200, 2⟩, ⟨"ZH", 1, 1⟩⟩

/-- A Playing state of the w-scenario whose current date is the earliest known
date, used by the C4 counterexample. -/
def c4State : AppState := step (step wInit Event.pressPlay) (Event.setDate 0)

/-- A Playing state of the w-scenario at the latest known date. -/
def c4Play : AppState := step wInit Event.pressPlay

/-! Helper lemmas. -/

theorem buildRows_getElem? (ct : CaseTable) :
    ∀ (sts : List StaticRow) (k n : ℕ),
      (buildRows ct k sts)[n]? = (sts[n]?).map (mkRow ct (k + n))
  | [], _, _ => by simp [buildRows]
  | _ :: _, _, 0 => by simp [buildRows]
  | _ :: rest, k, n + 1 => by
      simp only [buildRows, List.getElem?_cons_succ,
        buildRows_getElem? ct rest (k + 1) n]
      rw [Nat.add_assoc, Nat.add_comm 1 n]

theorem cellsOfRow_getElem?_join (ct : CaseTable) (k i : ℕ) :
    ((cellsOfRow ct k)[i]?).join = cellAt ct i k := by
  simp only [cellsOfRow, List.getElem?_map, cellAt]
  cases ct.rows[i]? <;> rfl

theorem cellsOfRow_length (ct : CaseTable) (k : ℕ) :
    (cellsOfRow ct k).length = ct.rows.length := by
  simp [cellsOfRow]

theorem colIndex_eq_none {l : List ℤ} {d : ℤ} (h : d ∉ l) : colIndex l d = none := by
  induction l with
  | nil => rfl
  | cons x xs ih =>
      simp only [List.mem_cons, not_or] at h
      rw [colIndex, if_neg (fun hx => h.1 hx.symm), ih h.2]
      rfl

theorem colIndex_isSome_of_mem {l : List ℤ} {d : ℤ} (h : d ∈ l) :
    ∃ j, colIndex l d = some j := by
  induction l with
  | nil => cases h
  | cons x xs ih =>
      by_cases hx : x = d
      · exact ⟨0, by rw [colIndex, if_pos hx]⟩
      · rcases List.mem_cons.mp h with h1 | h2
        · exact absurd h1.symm hx
        · obtain ⟨j, hj⟩ := ih h2
          exact ⟨j + 1, by rw [colIndex, if_neg hx, hj]; rfl⟩

theorem chain'_head_lt : ∀ (l : List ℤ) (a : ℤ), (a :: l).Chain' (· < ·) →
    ∀ x ∈ l, a < x
  | [], _, _, x, hx => by cases hx
  | b :: bs, a, h, x, hx => by
      rw [List.chain'_cons] at h
      rcases List.mem_cons.mp hx with rfl | hxs
      · exact h.1
      · exact lt_trans h.1 (chain'_head_lt bs b h.2 x hxs)

theorem le_getLast_of_chain' : ∀ (l : List ℤ), l.Chain' (· < ·) → ∀ x ∈ l,
    ∃ y, l.getLast? = some y ∧ x ≤ y
  | [], _, x, hx => by cases hx
  | [a], _, x, hx => by
      rcases List.mem_singleton.mp hx with rfl
      exact ⟨x, by simp, le_refl x⟩
  | a :: b :: bs, h, x, hx => by
      rw [List.chain'_cons] at h
      rcases List.mem_cons.mp hx with rfl | hxs
      · obtain ⟨y, hy, hby⟩ :=
          le_getLast_of_chain' (b :: bs) h.2 b (List.mem_cons_self b bs)
        exact ⟨y, by rw [List.getLast?_cons_cons]; exact hy,
          le_of_lt (lt_of_lt_of_le h.1 hby)⟩
      · obtain ⟨y, hy, hxy⟩ := le_getLast_of_chain' (b :: bs) h.2 x hxs
        exact ⟨y, by rw [List.getLast?_cons_cons]; exact hy, hxy⟩

theorem getLast?_some_of_ne_nil {l : List ℤ} (h : l ≠ []) :
    ∃ y, l.getLast? = some y := by
  obtain ⟨a, t, rfl⟩ := List.exists_cons_of_ne_nil h
  clear h
  induction t generalizing a with
  | nil => exact ⟨a, by simp⟩
  | cons b bs ih =>
      obtain ⟨y, hy⟩ := ih b
      exact ⟨y, by rw [List.getLast?_cons_cons]; exact hy⟩

theorem pred_mem_of_consec : ∀ (l : List ℤ), l.Chain' (fun a b => b = a + 1) →
    ∀ a, l.head? = some a → ∀ cur ∈ l, cur ≠ a → cur - 1 ∈ l
  | [], _, _, _, cur, hcur, _ => by cases hcur
  | [x], _, a, ha, cur, hcur, hne => by
      rcases List.mem_singleton.mp hcur with rfl
      have hxa : cur = a := by injection ha
      exact absurd hxa hne
  | x :: y :: ys, h, a, ha, cur, hcur, hne => by
      rw [List.chain'_cons] at h
      have hxa : x = a := by injection ha
      subst hxa
      rcases List.mem_cons.mp hcur with rfl | hmem
      · exact absurd rfl hne
      · by_cases hcy : cur = y
        · subst hcy
          have hx : cur - 1 = x := by omega
          rw [hx]
          exact List.mem_cons_self x _
        · have hrec := pred_mem_of_consec (y :: ys) h.2 y rfl cur hmem hcy
          exact List.mem_cons_of_mem x hrec

theorem foldl_min_mem {α : Type} [LinearOrder α] : ∀ (as : List α) (a : α),
    as.foldl min a ∈ a :: as
  | [], a => List.mem_singleton.mpr rfl
  | b :: bs, a => by
      rw [List.foldl_cons]
      rcases List.mem_cons.mp (foldl_min_mem bs (min a b)) with h | h
      · rw [h]
        rcases min_choice a b with h2 | h2
        · rw [h2]; exact List.mem_cons_self a _
        · rw [h2]; exact List.mem_cons_of_mem a (List.mem_cons_self b _)
      · exact List.mem_cons_of_mem a (List.mem_cons_of_mem b h)

theorem foldl_min_le {α : Type} [LinearOrder α] : ∀ (as : List α) (a : α) (x : α),
    x ∈ a :: as → as.foldl min a ≤ x
  | [], _, x, hx => by
      rcases List.mem_singleton.mp hx with rfl
      exact le_refl x
  | b :: bs, a, x, hx => by
      rw [List.foldl_cons]
      rcases List.mem_cons.mp hx with rfl | hx2
      · exact le_trans
          (foldl_min_le bs (min x b) (min x b) (List.mem_cons_self _ _)) (min_le_left x b)
      · rcases List.mem_cons.mp hx2 with rfl | hx3
        · exact le_trans
            (foldl_min_le bs (min a x) (min a x) (List.mem_cons_self _ _)) (min_le_right a x)
        · exact foldl_min_le bs (min a b) x (List.mem_cons_of_mem _ hx3)

theorem foldl_max_mem {α : Type} [LinearOrder α] : ∀ (as : List α) (a : α),
    as.foldl max a ∈ a :: as
  | [], a => List.mem_singleton.mpr rfl
  | b :: bs, a => by
      rw [List.foldl_cons]
      rcases List.mem_cons.mp (foldl_max_mem bs (max a b)) with h | h
      · rw [h]
        rcases max_choice a b with h2 | h2
        · rw [h2]; exact List.mem_cons_self a _
        · rw [h2]; exact List.mem_cons_of_mem a (List.mem_cons_self b _)
      · exact List.mem_cons_of_mem a (List.mem_cons_of_mem b h)

theorem le_foldl_max {α : Type} [LinearOrder α] : ∀ (as : List α) (a : α) (x : α),
    x ∈ a :: as → x ≤ as.foldl max a
  | [], _, x, hx => by
      rcases List.mem_singleton.mp hx with rfl
      exact le_refl x
  | b :: bs, a, x, hx => by
      rw [List.foldl_cons]
      rcases List.mem_cons.mp hx with rfl | hx2
      · exact le_trans (le_max_left x b)
          (le_foldl_max bs (max x b) (max x b) (List.mem_cons_self _ _))
      · rcases List.mem_cons.mp hx2 with rfl | hx3
        · exact le_trans (le_max_right a x)
            (le_foldl_max bs (max a x) (max a x) (List.mem_cons_self _ _))
        · exact le_foldl_max bs (max a b) x (List.mem_cons_of_mem _ hx3)

theorem callback_of_none {s : AppState} {d : ℤ} (h : colIndex s.dates d = none) :
    callback s d = Except.error () := by
  unfold callback
  rw [h]

theorem callback_of_some {s : AppState} {d : ℤ} {j : ℕ} (h : colIndex s.dates d = some j) :
    callback s d = Except.ok { s with merged := s.merged.map (updRow j),
                                      published := s.merged.map (updRow j) } := by
  unfold callback
  rw [h]

theorem setDateStep_of_none {s : AppState} {d : ℤ} (h : colIndex s.dates d = none) :
    setDateStep s d = { s with sliderValue := d } := by
  unfold setDateStep
  dsimp only
  rw [callback_of_none (show colIndex ({ s with sliderValue := d } : AppState).dates d = none from h)]

theorem setDateStep_of_some {s : AppState} {d : ℤ} {j : ℕ}
    (h : colIndex s.dates d = some j) :
    setDateStep s d = { s with sliderValue := d,
                               merged := s.merged.map (updRow j),
                               published := s.merged.map (updRow j) } := by
  unfold setDateStep
  dsimp only
  rw [callback_of_some (show colIndex ({ s with sliderValue := d } : AppState).dates d = some j from h)]

/-! Claim theorems. -/

/-- Claim C3: a canton code appears in the merged output iff it appears in the
polygon table, the demographics table and the location table; a canton missing
from any one of the three is dropped by the inner joins, and the join itself is
a total function, so the exclusion is silent (no error is raised). -/
theorem C3_join_correct (polys : List PolyRow) (demos : List DemoRow)
    (points : List PointRow) (c : String) :
    (∃ r ∈ mergeStatic polys demos points, r.poly.Canton = c) ↔
      ((∃ p ∈ polys, p.Canton = c) ∧ (∃ q ∈ demos, q.Canton = c) ∧
        (∃ t ∈ points, t.abbreviation_canton = c)) := by
  constructor
  · rintro ⟨r, hr, hc⟩
    simp only [mergeStatic, List.mem_flatMap, List.mem_map, List.mem_filter,
      beq_iff_eq] at hr
    obtain ⟨pq, ⟨p, hp, q, ⟨hq, hqc⟩, hpq⟩, t, ⟨ht, htc⟩, hrt⟩ := hr
    subst hpq
    subst hrt
    simp only at hc htc hqc
    exact ⟨⟨p, hp, hc⟩, ⟨q, hq, by rw [hqc, hc]⟩, ⟨t, ht, by rw [htc, hc]⟩⟩
  · rintro ⟨⟨p, hp, hpc⟩, ⟨q, hq, hqc⟩, ⟨t, ht, htc⟩⟩
    refine ⟨⟨p, q, t⟩, ?_, hpc⟩
    simp only [mergeStatic, List.mem_flatMap, List.mem_map, List.mem_filter, beq_iff_eq]
    exact ⟨(p, q), ⟨p, hp, q, ⟨hq, by rw [hqc, hpc]⟩, rfl⟩,
      t, ⟨ht, by rw [htc, hpc]⟩, rfl⟩

/-- Claim C1, counterexample: with merged row order ZH before AG but case-table
column order AG before ZH, the merged record for ZH holds AG's recorded figure
(1), not the figure recorded for ZH (2) — the expansion is keyed by position,
not by canton. -/
theorem C1_keyed_cex :
    mergedCell (initMerged c1Polys c1Demos c1Points c1Case) "ZH" 0 = some 1 ∧
    specCaseValue c1Case 0 "ZH" = some 2 ∧
    mergedCell (initMerged c1Polys c1Demos c1Points c1Case) "ZH" 0 ≠
      specCaseValue c1Case 0 "ZH" := by decide

/-- Claim C1 (amended): the per-date expansion is positional, not keyed by
canton: the merged record at row position k holds, in the column of the i-th
date, the case table's cell at row i and column position k (or a missing value
when the source has none there); it holds the figure recorded for canton c only
when c happens to be the k-th case-series column. -/
theorem C1_positional_expansion (polys : List PolyRow) (demos : List DemoRow)
    (points : List PointRow) (ct : CaseTable) (k : ℕ) (r : MergedRow)
    (hk : (initMerged polys demos points ct)[k]? = some r) :
    ∀ i : ℕ, (r.cells[i]?).join = cellAt ct i k := by
  intro i
  rw [initMerged, buildRows_getElem?] at hk
  cases hst : (mergeStatic polys demos points)[k]? with
  | none => rw [hst] at hk; cases hk
  | some st =>
      rw [hst] at hk
      simp only [Option.map_some', Option.some.injEq] at hk
      subst hk
      simp only [mkRow, Nat.zero_add]
      exact cellsOfRow_getElem?_join ct k i

/-- Witness for C1_positional_expansion at the counterexample scenario. -/
theorem C1_positional_witness : (c1Row0.cells[0]?).join = cellAt c1Case 0 0 :=
  C1_positional_expansion c1Polys c1Demos c1Points c1Case 0 c1Row0 rfl 0

/-- Claim C2: the size affine law.  SCALE and OFFSET are the fixed constants
1e5/5 and 10; after SetDate(d), every record whose cell in the column of d
holds a defined value v publishes size = v * SCALE + OFFSET exactly and dnc =
the raw unscaled v; and the initial size/dnc of lines 105-106 are derived from
the latest known date's column by the same law (the case series being
chronologically sorted with at least one date and one value row per date). -/
theorem C2_size_affine_law :
    SCALE = 100000 / 5 ∧ OFFSET = 10 ∧
    (∀ (s : AppState) (d : ℤ) (j k : ℕ) (r : MergedRow) (v : ℚ),
      colIndex s.dates d = some j →
      s.merged[k]? = some r →
      (r.cells[j]?).join = some v →
      ∃ r2, (setDateStep s d).published[k]? = some r2 ∧
        r2.size = some (v * SCALE + OFFSET) ∧ r2.dnc = some v) ∧
    (∀ (polys : List PolyRow) (demos : List DemoRow) (points : List PointRow)
      (ct : CaseTable) (k : ℕ) (r : MergedRow),
      ct.dates.Chain' (· < ·) → ct.dates ≠ [] → ct.rows.length = ct.dates.length →
      (initState polys demos points ct).published[k]? = some r →
      ∃ dmax, ct.dates.getLast? = some dmax ∧ (∀ x ∈ ct.dates, x ≤ dmax) ∧
        ct.dates[ct.dates.length - 1]? = some dmax ∧
        r.size = (cellAt ct (ct.dates.length - 1) k).map scaleSize ∧
        r.dnc = cellAt ct (ct.dates.length - 1) k) := by
  refine ⟨by norm_num [SCALE], rfl, ?_, ?_⟩
  · intro s d j k r v hj hk hv
    rw [setDateStep_of_some hj]
    refine ⟨updRow j r, ?_, ?_, ?_⟩
    · show (s.merged.map (updRow j))[k]? = some (updRow j r)
      rw [List.getElem?_map, hk]
      rfl
    · show ((r.cells[j]?).join).map scaleSize = some (v * SCALE + OFFSET)
      rw [hv]
      rfl
    · exact hv
  · intro polys demos points ct k r hsort hne hlen hk
    obtain ⟨dmax, hdm⟩ := getLast?_some_of_ne_nil hne
    have hpub : (initState polys demos points ct).published
        = initMerged polys demos points ct := rfl
    rw [hpub, initMerged, buildRows_getElem?] at hk
    cases hst : (mergeStatic polys demos points)[k]? with
    | none => rw [hst] at hk; cases hk
    | some st =>
        rw [hst] at hk
        simp only [Option.map_some', Option.some.injEq] at hk
        subst hk
        refine ⟨dmax, hdm, ?_, ?_, ?_, ?_⟩
        · intro x hx
          obtain ⟨y, hy, hxy⟩ := le_getLast_of_chain' ct.dates hsort x hx
          rw [hdm] at hy
          injection hy with hy
          rw [hy]
          exact hxy
        · rw [← List.getLast?_eq_getElem?]
          exact hdm
        · simp only [mkRow, Nat.zero_add]
          rw [List.getLast?_eq_getElem?, cellsOfRow_length, hlen,
            cellsOfRow_getElem?_join]
        · simp only [mkRow, Nat.zero_add]
          rw [List.getLast?_eq_getElem?, cellsOfRow_length, hlen,
            cellsOfRow_getElem?_join]

/-- Witness for C2_size_affine_law: in the w-scenario, SetDate(first date)
publishes AG's size as 1 * SCALE + OFFSET and dnc as the raw 1. -/
theorem C2_witness :
    SCALE = 100000 / 5 ∧
    ((setDateStep wInit 0).published[0]?).map (fun r2 => (r2.size, r2.dnc)) =
      some (some (1 * SCALE + OFFSET), some 1) := by
  obtain ⟨r2, h1, h2, h3⟩ :=
    C2_size_affine_law.2.2.1 wInit 0 0 0 wRow0 1 rfl rfl rfl
  exact ⟨C2_size_affine_law.1, by rw [h1, Option.map_some', h2, h3]⟩

/-- Claim C4, counterexample: in a Playing state whose current date is the
earliest known date 0 of the known dates [0, 1, 2], one Tick sets the date to
2 — the latest known date — and not to the earliest one as the claim states. -/
theorem C4_wrap_cex :
    c4State.playing = true ∧ c4State.sliderValue = 0 ∧
    c4State.dates = [0, 1, 2] ∧ c4State.dates.head? = some 0 ∧
    c4State.dates.getLast? = some 2 ∧
    (tickStep c4State).sliderValue = 2 ∧ ((2 : ℤ) ≠ 0) := by
  refine ⟨rfl, rfl, rfl, rfl, rfl, rfl, by decide⟩

/-- Claim C4 (amended): for every Playing state with current date d, a Tick
computes next = d minus one day and, if next is not among the known dates,
wraps to the LATEST known date (dates[-1], line 209) before calling
SetDate(next); the known dates are taken chronologically sorted. -/
theorem C4_tick_wraps_to_latest (s : AppState) (hp : s.playing = true)
    (hs : s.dates.Chain' (· < ·)) (hne : s.dates ≠ []) :
    (s.sliderValue - 1 ∈ s.dates → tickStep s = setDateStep s (s.sliderValue - 1)) ∧
    (s.sliderValue - 1 ∉ s.dates →
      ∃ dlast, s.dates.getLast? = some dlast ∧ (∀ x ∈ s.dates, x ≤ dlast) ∧
        tickStep s = setDateStep s dlast) := by
  constructor
  · intro hmem
    unfold tickStep
    rw [if_pos hp]
    unfold tickNext
    dsimp only
    rw [if_pos hmem]
  · intro hmem
    obtain ⟨dlast, hdl⟩ := getLast?_some_of_ne_nil hne
    refine ⟨dlast, hdl, ?_, ?_⟩
    · intro x hx
      obtain ⟨y, hy, hxy⟩ := le_getLast_of_chain' s.dates hs x hx
      rw [hdl] at hy
      injection hy with hy
      rw [hy]
      exact hxy
    · unfold tickStep
      rw [if_pos hp]
      unfold tickNext
      dsimp only
      rw [if_neg hmem, hdl]

/-- Witness for C4_tick_wraps_to_latest: in a Playing state at the latest known
date, one Tick is SetDate of the previous day. -/
theorem C4_wrap_witness :
    tickStep c4Play = setDateStep c4Play (c4Play.sliderValue - 1) :=
  (C4_tick_wraps_to_latest c4Play rfl
    (List.Chain.cons (by decide) (List.Chain.cons (by decide) List.Chain.nil))
    (by decide)).1 (by decide)

/-- Claim C5: with the known dates a chronologically sorted run of consecutive
calendar days (the case series is a daily series), one Tick from the earliest
known date yields the latest known date (the wrap), and one Tick from any other
known date d yields the date immediately preceding d in sorted order, namely
d minus one day, which is then the greatest known date below d. -/
theorem C5_tick_monotone (dates : List ℤ) (cur : ℤ)
    (hc : dates.Chain' (fun a b => b = a + 1)) (hne : dates ≠ []) (hcur : cur ∈ dates) :
    (dates.head? = some cur →
      ∃ dlast, tickNext dates cur = some dlast ∧ dates.getLast? = some dlast ∧
        (∀ x ∈ dates, x ≤ dlast) ∧ (∀ x ∈ dates, cur ≤ x)) ∧
    (dates.head? ≠ some cur →
      tickNext dates cur = some (cur - 1) ∧ (cur - 1) ∈ dates ∧
        (∀ x ∈ dates, x < cur → x ≤ cur - 1)) := by
  have hlt : dates.Chain' (· < ·) := hc.imp (fun hab => by omega)
  obtain ⟨a, t, rfl⟩ := List.exists_cons_of_ne_nil hne
  constructor
  · intro hhead
    have hac : a = cur := by injection hhead
    subst hac
    have hnotmem : a - 1 ∉ a :: t := by
      intro hmem2
      rcases List.mem_cons.mp hmem2 with heq | hmem3
      · omega
      · have := chain'_head_lt t a hlt (a - 1) hmem3
        omega
    obtain ⟨dlast, hdl⟩ := getLast?_some_of_ne_nil (l := a :: t) (by simp)
    refine ⟨dlast, ?_, hdl, ?_, ?_⟩
    · unfold tickNext
      dsimp only
      rw [if_neg hnotmem]
      exact hdl
    · intro x hx
      obtain ⟨y, hy, hxy⟩ := le_getLast_of_chain' (a :: t) hlt x hx
      rw [hdl] at hy
      injection hy with hy
      rw [hy]
      exact hxy
    · intro x hx
      rcases List.mem_cons.mp hx with rfl | hx2
      · exact le_refl x
      · exact le_of_lt (chain'_head_lt t a hlt x hx2)
  · intro hhead
    have hca : cur ≠ a := by
      intro h2
      subst h2
      exact hhead rfl
    have hpm := pred_mem_of_consec (a :: t) hc a rfl cur hcur hca
    refine ⟨?_, hpm, ?_⟩
    · unfold tickNext
      dsimp only
      rw [if_pos hpm]
    · intro x _ hxlt
      omega

/-- Witness for C5_tick_monotone at the consecutive dates 0, 1, 2 starting from
the non-earliest date 1: one Tick yields the immediate predecessor 0. -/
theorem C5_witness :
    tickNext [0, 1, 2] 1 = some (1 - 1) ∧ ((1 : ℤ) - 1) ∈ ([0, 1, 2] : List ℤ) := by
  have h := (C5_tick_monotone [0, 1, 2] 1
    (List.Chain.cons (by decide) (List.Chain.cons (by decide) List.Chain.nil))
    (by decide) (by decide)).2 (by decide)
  exact ⟨h.1, h.2.1⟩

/-- Claim C6, counterexample: looking up date 5, whose column is absent from
the w-scenario's per-date columns, makes the callback raise a KeyError
(Except.error) instead of failing soft; nothing is re-rendered as no data —
the previous document simply persists. -/
theorem C6_lookup_cex :
    ((5 : ℤ) ∉ wInit.dates) ∧
    callback { wInit with sliderValue := 5 } 5 = Except.error () ∧
    (setDateStep wInit 5).published = wInit.published ∧
    (setDateStep wInit 5).merged = wInit.merged :=
  ⟨by decide, rfl, rfl, rfl⟩

/-- Claim C6 (amended): a lookup of a date absent from the per-date columns
fails hard, not soft: merged[i] raises a KeyError inside the callback, the
bokeh server drops the exception, and no new document is published — the
merged table and the published document are left unchanged (only the slider
moved), so the affected cantons are not re-rendered as no data. -/
theorem C6_lookup_fails_hard (s : AppState) (d : ℤ) (hd : d ∉ s.dates) :
    callback { s with sliderValue := d } d = Except.error () ∧
    (setDateStep s d).merged = s.merged ∧
    (setDateStep s d).published = s.published ∧
    (setDateStep s d).sliderValue = d := by
  have hcol : colIndex s.dates d = none := colIndex_eq_none hd
  have hcol2 : colIndex ({ s with sliderValue := d } : AppState).dates d = none := hcol
  refine ⟨callback_of_none hcol2, ?_, ?_, ?_⟩ <;> rw [setDateStep_of_none hcol]

/-- Witness for C6_lookup_fails_hard at the absent date 7 of the w-scenario. -/
theorem C6_lookup_witness :
    callback { wInit with sliderValue := 7 } 7 = Except.error () :=
  (C6_lookup_fails_hard wInit 7 (by decide)).1

/-- Claim C7: a known date whose cell for some canton has no recorded value is
published as absent size and dnc for that canton — not as zero and not as an
error (the callback succeeds). -/
theorem C7_missing_value_no_data (s : AppState) (d : ℤ) (j k : ℕ) (r : MergedRow)
    (hj : colIndex s.dates d = some j)
    (hk : s.merged[k]? = some r)
    (hcell : r.cells[j]? = some none) :
    callback s d ≠ Except.error () ∧
    ∃ r2, (setDateStep s d).published[k]? = some r2 ∧
      r2.size = none ∧ r2.dnc = none ∧ r2.size ≠ some 0 ∧ r2.dnc ≠ some 0 := by
  have hsize : (updRow j r).size = none := by
    show ((r.cells[j]?).join).map scaleSize = none
    rw [hcell]
    rfl
  have hdnc : (updRow j r).dnc = none := by
    show (r.cells[j]?).join = none
    rw [hcell]
    rfl
  constructor
  · rw [callback_of_some hj]
    intro h
    cases h
  · refine ⟨updRow j r, ?_, hsize, hdnc, ?_, ?_⟩
    · rw [setDateStep_of_some hj]
      show (s.merged.map (updRow j))[k]? = some (updRow j r)
      rw [List.getElem?_map, hk]
      rfl
    · rw [hsize]
      intro h
      cases h
    · rw [hdnc]
      intro h
      cases h

/-- Witness for C7_missing_value_no_data: SetDate of the middle date of the
w-scenario (AG's missing value) publishes AG's size and dnc as absent. -/
theorem C7_witness :
    ((setDateStep wInit 1).published[0]?).map (fun r2 => (r2.size, r2.dnc)) =
      some ((none : Option ℚ), (none : Option ℚ)) := by
  obtain ⟨-, r2, h1, h2, h3, -, -⟩ :=
    C7_missing_value_no_data wInit 1 1 0 wRow0 rfl rfl rfl
  rw [h1, Option.map_some', h2, h3]

/-- Claim C8: SetDate is idempotent.  The callback recomputes size and dnc from
the per-date cells, which it never modifies, and republishes the serialized
document, so a second SetDate(d) reproduces the entire state — in particular
the published document and every record's size/dnc — exactly. -/
theorem C8_setDate_idempotent (s : AppState) (d : ℤ) (hd : d ∈ s.dates) :
    setDateStep (setDateStep s d) d = setDateStep s d := by
  obtain ⟨j, hj⟩ := colIndex_isSome_of_mem hd
  rw [setDateStep_of_some hj]
  have hj2 : colIndex ({ s with sliderValue := d,
                                merged := s.merged.map (updRow j),
                                published := s.merged.map (updRow j) } : AppState).dates d
      = some j := hj
  rw [setDateStep_of_some hj2]
  have hff : updRow j ∘ updRow j = updRow j := funext fun r => rfl
  show ({ s with sliderValue := d,
                 merged := (s.merged.map (updRow j)).map (updRow j),
                 published := (s.merged.map (updRow j)).map (updRow j) } : AppState) = _
  rw [List.map_map, hff]

/-- Witness for C8_setDate_idempotent at the w-scenario's middle date. -/
theorem C8_witness : setDateStep (setDateStep wInit 1) 1 = setDateStep wInit 1 :=
  C8_setDate_idempotent wInit 1 (by decide)

/-- Claim C9: each metric's color-mapper bounds are the minimum and maximum of
the full static demographics column, fixed at startup, and SetDate never
changes either mapper. -/
theorem C9_color_bounds (polys : List PolyRow) (demos : List DemoRow)
    (points : List PointRow) (ct : CaseTable) (hne : demos ≠ []) :
    ((initState polys demos points ct).densityMapper.low ∈ demos.map DemoRow.Density ∧
      (∀ v ∈ demos.map DemoRow.Density,
        (initState polys demos points ct).densityMapper.low ≤ v) ∧
      (initState polys demos points ct).densityMapper.high ∈ demos.map DemoRow.Density ∧
      (∀ v ∈ demos.map DemoRow.Density,
        v ≤ (initState polys demos points ct).densityMapper.high) ∧
      (initState polys demos points ct).bedsMapper.low ∈ demos.map DemoRow.BedsPerCapita ∧
      (∀ v ∈ demos.map DemoRow.BedsPerCapita,
        (initState polys demos points ct).bedsMapper.low ≤ v) ∧
      (initState polys demos points ct).bedsMapper.high ∈ demos.map DemoRow.BedsPerCapita ∧
      (∀ v ∈ demos.map DemoRow.BedsPerCapita,
        v ≤ (initState polys demos points ct).bedsMapper.high)) ∧
    (∀ (s : AppState) (d : ℤ),
      (setDateStep s d).densityMapper = s.densityMapper ∧
      (setDateStep s d).bedsMapper = s.bedsMapper) := by
  constructor
  · obtain ⟨q, qs, rfl⟩ := List.exists_cons_of_ne_nil hne
    have hdl : (initState polys (q :: qs) points ct).densityMapper.low
        = (qs.map DemoRow.Density).foldl min q.Density := rfl
    have hdh : (initState polys (q :: qs) points ct).densityMapper.high
        = (qs.map DemoRow.Density).foldl max q.Density := rfl
    have hbl : (initState polys (q :: qs) points ct).bedsMapper.low
        = (qs.map DemoRow.BedsPerCapita).foldl min q.BedsPerCapita := rfl
    have hbh : (initState polys (q :: qs) points ct).bedsMapper.high
        = (qs.map DemoRow.BedsPerCapita).foldl max q.BedsPerCapita := rfl
    refine ⟨?_, ?_, ?_, ?_, ?_, ?_, ?_, ?_⟩
    · rw [hdl, List.map_cons]
      exact foldl_min_mem _ _
    · intro v hv
      rw [List.map_cons] at hv
      rw [hdl]
      exact foldl_min_le _ _ v hv
    · rw [hdh, List.map_cons]
      exact foldl_max_mem _ _
    · intro v hv
      rw [List.map_cons] at hv
      rw [hdh]
      exact le_foldl_max _ _ v hv
    · rw [hbl, List.map_cons]
      exact foldl_min_mem _ _
    · intro v hv
      rw [List.map_cons] at hv
      rw [hbl]
      exact foldl_min_le _ _ v hv
    · rw [hbh, List.map_cons]
      exact foldl_max_mem _ _
    · intro v hv
      rw [List.map_cons] at hv
      rw [hbh]
      exact le_foldl_max _ _ v hv
  · intro s d
    cases hcol : colIndex s.dates d with
    | none =>
        rw [setDateStep_of_none hcol]
        exact ⟨rfl, rfl⟩
    | some j =>
        rw [setDateStep_of_some hcol]
        exact ⟨rfl, rfl⟩

/-- Witness for C9_color_bounds at the w-scenario. -/
theorem C9_witness :
    wInit.densityMapper.low ∈ wDemos.map DemoRow.Density ∧
    (setDateStep wInit 0).densityMapper = wInit.densityMapper := by
  have h := C9_color_bounds wPolys wDemos wPoints wCase (by decide)
  exact ⟨h.1.1, (h.2 wInit 0).1⟩

/-- Setting the slider preserves size/dnc consistency of every merged record:
either the callback raises (merged unchanged) or both volatile columns are
rewritten from one date column. -/
theorem consistent_of_setDateStep {s : AppState} (d : ℤ)
    (ih : ∀ r ∈ s.merged, rowConsistent r) :
    ∀ r ∈ (setDateStep s d).merged, rowConsistent r := by
  cases hcol : colIndex s.dates d with
  | none =>
      rw [setDateStep_of_none hcol]
      exact ih
  | some j =>
      rw [setDateStep_of_some hcol]
      intro r hr
      show rowConsistent r
      have hr2 : r ∈ s.merged.map (updRow j) := hr
      rcases List.mem_map.mp hr2 with ⟨r0, _, rfl⟩
      exact ⟨j, rfl, rfl⟩

/-- Claim C10: in every reachable state — after startup and after every
SetDate, SetMetric, Tick or PressPlay — each merged record's size and dnc are
derived from one and the same date column, satisfy size = dnc * SCALE + OFFSET
whenever dnc is defined, and are missing together when that column's value is
missing. -/
theorem C10_size_dnc_invariant (polys : List PolyRow) (demos : List DemoRow)
    (points : List PointRow) (ct : CaseTable) (s : AppState)
    (h : Reachable polys demos points ct s) :
    ∀ r ∈ s.merged, rowConsistent r := by
  induction h with
  | init =>
      intro r hr
      have hr2 : r ∈ initMerged polys demos points ct := hr
      obtain ⟨k, hk⟩ := List.getElem?_of_mem hr2
      rw [initMerged, buildRows_getElem?] at hk
      cases hst : (mergeStatic polys demos points)[k]? with
      | none => rw [hst] at hk; cases hk
      | some st =>
          rw [hst] at hk
          simp only [Option.map_some', Option.some.injEq] at hk
          subst hk
          refine ⟨(cellsOfRow ct (0 + k)).length - 1, ?_, ?_⟩
          · simp only [mkRow]
            rw [List.getLast?_eq_getElem?]
          · simp only [mkRow]
            rw [List.getLast?_eq_getElem?]
  | next e h ih =>
      cases e with
      | setDate d => exact consistent_of_setDateStep d ih
      | setMetric m =>
          simp only [step]
          split
          · exact ih
          · exact ih
      | pressPlay => exact ih
      | tick =>
          simp only [step, tickStep]
          split
          · split
            · exact consistent_of_setDateStep _ ih
            · exact ih
          · exact ih

/-- Witness for C10_size_dnc_invariant at the startup state of the w-scenario. -/
theorem C10_witness : rowConsistent wRow0 :=
  C10_size_dnc_invariant wPolys wDemos wPoints wCase wInit Reachable.init wRow0
    (List.mem_cons_self _ _)

end Ex4
